import Mathlib

/-!
Verification of a systematic Coinbase trading program.

This file gives a shallow embedding of the portfolio optimization and
rebalancing code (src/execution/optimize_portfolio.py, src/execution/rebalance.py
and their callers src/execution/daily_trade.py, src/testing/back_test.py),
and proves the specification claims about it.

Numeric modelling: Python floats are modelled as exact rationals wherever the
source computation stays inside the rational operations (+, -, *, /, abs,
comparisons), and as real numbers where the source takes logarithms, square
roots or real powers (np.log, np.sqrt, 2 ** (-1/halflife)).
-/

namespace CoinTrader

/-! ### Constants from src/execution/globals.py -/

/-- globals.py: TURNOVER_CAP = 0.50. -/
def TURNOVER_CAP : ℚ := 1 / 2

/-- globals.py: REBALANCE_BAND = 0.20. -/
def REBALANCE_BAND : ℚ := 1 / 5

/-- globals.py: EWMA_HALFLIFE = 60. -/
def EWMA_HALFLIFE : ℚ := 60

/-! ### src/execution/optimize_portfolio.py — rational-valued steps

apply_rebalancing_bands(target_weights, current_weights, band):
    delta_weights = target_weights - current_weights
    delta_weights[np.abs(delta_weights) <= band] = 0
    return delta_weights

apply_turnover_cap(delta_weights, turnover_cap):
    total_turnover = np.abs(delta_weights).sum()
    if total_turnover > turnover_cap:
        scale_factor = turnover_cap / total_turnover
        delta_weights = delta_weights * scale_factor
    return delta_weights

Vectors are lists of rationals; numpy elementwise operations become zipWith/map.
-/

/-- Embedding of apply_rebalancing_bands (optimize_portfolio.py lines 153-171). -/
def apply_rebalancing_bands (target_weights current_weights : List ℚ) (band : ℚ) :
    List ℚ :=
  (List.zipWith (fun t c => t - c) target_weights current_weights).map
    (fun d => if |d| ≤ band then 0 else d)

/-- Embedding of apply_turnover_cap (optimize_portfolio.py lines 174-194). -/
def apply_turnover_cap (delta_weights : List ℚ) (turnover_cap : ℚ) : List ℚ :=
  let total_turnover := (delta_weights.map (fun d => |d|)).sum
  if turnover_cap < total_turnover then
    delta_weights.map (fun d => d * (turnover_cap / total_turnover))
  else
    delta_weights

/-- Summed absolute value of a uniformly scaled list. -/
theorem sum_abs_map_mul (l : List ℚ) (s : ℚ) :
    ((l.map (fun d => d * s)).map (fun d => |d|)).sum
      = (l.map (fun d => |d|)).sum * |s| := by
  induction l with
  | nil => simp
  | cons a l ih => simp only [List.map_cons, List.sum_cons, abs_mul, add_mul, ih]

/-- C5: the turnover-cap operation returns a vector whose summed absolute value
is at most the cap, and which is a non-negative scalar multiple of the input;
on delta [0.30, -0.20, -0.10] with cap 0.50 the scale factor is 5/6 and the
result is [1/4, -1/6, -1/12], whose summed absolute turnover is exactly 0.50. -/
theorem apply_turnover_cap_spec (delta : List ℚ) (cap : ℚ) (hc : 0 < cap) :
    ((apply_turnover_cap delta cap).map (fun d => |d|)).sum ≤ cap
      ∧ (∃ s : ℚ, 0 ≤ s ∧ apply_turnover_cap delta cap = delta.map (fun d => d * s))
      ∧ apply_turnover_cap [3/10, -(2/10), -(1/10)] (1/2) = [1/4, -(1/6), -(1/12)]
      ∧ (1/2 : ℚ) / ((([3/10, -(2/10), -(1/10)] : List ℚ).map (fun d => |d|)).sum) = 5/6
      ∧ ((([1/4, -(1/6), -(1/12)] : List ℚ).map (fun d => |d|)).sum) = 1/2 := by
  refine ⟨?_, ?_, by norm_num [apply_turnover_cap, abs_of_nonneg, abs_of_nonpos],
         by norm_num [abs_of_nonneg, abs_of_nonpos],
         by norm_num [abs_of_nonneg, abs_of_nonpos]⟩
  · unfold apply_turnover_cap
    by_cases h : cap < (delta.map (fun d => |d|)).sum
    · rw [if_pos h, sum_abs_map_mul]
      have ht : (0 : ℚ) < (delta.map (fun d => |d|)).sum := lt_trans hc h
      have habs : |cap / (delta.map (fun d => |d|)).sum|
          = cap / (delta.map (fun d => |d|)).sum :=
        abs_of_nonneg (div_nonneg hc.le ht.le)
      rw [habs, mul_div_assoc', mul_comm, mul_div_assoc, div_self ht.ne', mul_one]
    · rw [if_neg h]
      exact le_of_not_lt h
  · unfold apply_turnover_cap
    by_cases h : cap < (delta.map (fun d => |d|)).sum
    · rw [if_pos h]
      have ht : (0 : ℚ) < (delta.map (fun d => |d|)).sum := lt_trans hc h
      exact ⟨cap / (delta.map (fun d => |d|)).sum,
             div_nonneg hc.le ht.le, rfl⟩
    · rw [if_neg h]
      exact ⟨1, zero_le_one, by simp⟩

/-- Witness for C5: the hypothesis 0 < cap holds at cap = 1/2 and the theorem
evaluates on the concrete end-to-end example. -/
theorem apply_turnover_cap_spec_witness :
    (0 : ℚ) < 1/2
      ∧ ((apply_turnover_cap [3/10, -(2/10), -(1/10)] (1/2)).map (fun d => |d|)).sum
          ≤ 1/2 :=
  ⟨by norm_num, (apply_turnover_cap_spec [3/10, -(2/10), -(1/10)] (1/2) (by norm_num)).1⟩

/-- C9: band suppression is elementwise and independent per asset: the i-th
component of the returned delta is 0 when the i-th raw delta has absolute value
at most the band and is the raw delta otherwise; the spec's concrete example
(current [0.40, 0.35, 0.25], target [0.41, 0.34, 0.25], band 0.02) yields
[0, 0, 0]. -/
theorem apply_rebalancing_bands_spec :
    (∀ (t c : List ℚ) (b : ℚ) (i : ℕ), i < t.length → i < c.length →
      (apply_rebalancing_bands t c b).getD i 0 =
        if |t.getD i 0 - c.getD i 0| ≤ b then 0 else t.getD i 0 - c.getD i 0)
      ∧ apply_rebalancing_bands [41/100, 17/50, 1/4] [2/5, 7/20, 1/4] (1/50)
          = [0, 0, 0] := by
  constructor
  · intro t c b i hit hic
    have hzip : i < (List.zipWith (fun t c => t - c) t c).length := by
      rw [List.length_zipWith]
      exact lt_min hit hic
    have hlen : i < (apply_rebalancing_bands t c b).length := by
      simpa [apply_rebalancing_bands] using hzip
    rw [List.getD_eq_getElem _ _ hlen, List.getD_eq_getElem _ _ hit,
        List.getD_eq_getElem _ _ hic]
    simp [apply_rebalancing_bands]
  · norm_num [apply_rebalancing_bands, abs_of_nonneg, abs_of_nonpos, abs_le]

/-- Witness for C9: instantiation at the spec's example, asset index 0. -/
theorem apply_rebalancing_bands_spec_witness :
    (0 < ([41/100, 17/50, 1/4] : List ℚ).length)
      ∧ (0 < ([2/5, 7/20, 1/4] : List ℚ).length)
      ∧ (apply_rebalancing_bands [41/100, 17/50, 1/4] [2/5, 7/20, 1/4] (1/50)).getD 0 0
          = if |([41/100, 17/50, 1/4] : List ℚ).getD 0 0
                  - ([2/5, 7/20, 1/4] : List ℚ).getD 0 0| ≤ (1/50 : ℚ) then 0
            else ([41/100, 17/50, 1/4] : List ℚ).getD 0 0
                  - ([2/5, 7/20, 1/4] : List ℚ).getD 0 0 :=
  ⟨by decide, by decide,
   apply_rebalancing_bands_spec.1 [41/100, 17/50, 1/4] [2/5, 7/20, 1/4] (1/50) 0
     (by decide) (by decide)⟩

/-- Dividing every entry of a list by the same value divides the sum. -/
theorem sum_map_div (l : List ℚ) (s : ℚ) :
    (l.map (fun x => x / s)).sum = l.sum / s := by
  induction l with
  | nil => simp
  | cons a l ih => simp [ih, add_div]

/-- Embedding of the clamp-and-normalize step of compute_tangency_weights
(optimize_portfolio.py lines 97-122).  The linear solve
np.linalg.solve(cov_matrix, expected_returns) is modelled by its result vector
tangency, taken as the argument: the claims quantify over solves that succeed.
The source then sets negatives to zero and normalizes to sum 1, falling back to
equal weights 1/K when the clamped sum is not positive. -/
def compute_tangency_weights (tangency : List ℚ) : List ℚ :=
  let clamped := tangency.map (fun x => if x < 0 then 0 else x)
  if 0 < clamped.sum then
    clamped.map (fun x => x / clamped.sum)
  else
    List.replicate tangency.length ((1 : ℚ) / tangency.length)

/-- C4: for every solved tangency direction over a nonempty risky universe, the
output weights are all non-negative and sum to exactly 1; when every component
of the solved direction is non-positive the output is equal weights 1/K. -/
theorem compute_tangency_weights_spec (sol : List ℚ) (hne : sol ≠ []) :
    (∀ w ∈ compute_tangency_weights sol, 0 ≤ w)
      ∧ (compute_tangency_weights sol).sum = 1
      ∧ ((∀ x ∈ sol, x ≤ 0) →
          compute_tangency_weights sol
            = List.replicate sol.length ((1 : ℚ) / sol.length)) := by
  have hlen : sol.length ≠ 0 := fun h => hne (List.length_eq_zero.mp h)
  have hlenQ : ((sol.length : ℚ)) ≠ 0 := Nat.cast_ne_zero.mpr hlen
  have hnn : ∀ y ∈ sol.map (fun x => if x < 0 then (0 : ℚ) else x), 0 ≤ y := by
    intro y hy
    rcases List.mem_map.mp hy with ⟨x, _, rfl⟩
    by_cases h : x < 0
    · simp [h]
    · simp [h, le_of_not_lt h]
  refine ⟨?_, ?_, ?_⟩
  · intro w hw
    unfold compute_tangency_weights at hw
    by_cases hpos : 0 < (sol.map (fun x => if x < 0 then (0 : ℚ) else x)).sum
    · rw [if_pos hpos] at hw
      rcases List.mem_map.mp hw with ⟨y, hy, rfl⟩
      exact div_nonneg (hnn y hy) hpos.le
    · rw [if_neg hpos] at hw
      rcases (List.mem_replicate.mp hw) with ⟨-, rfl⟩
      exact div_nonneg zero_le_one (Nat.cast_nonneg _)
  · unfold compute_tangency_weights
    by_cases hpos : 0 < (sol.map (fun x => if x < 0 then (0 : ℚ) else x)).sum
    · rw [if_pos hpos, sum_map_div, div_self hpos.ne']
    · rw [if_neg hpos, List.sum_replicate, nsmul_eq_mul, mul_one_div, div_self hlenQ]
  · intro hall
    have hz : (sol.map (fun x => if x < 0 then (0 : ℚ) else x)).sum = 0 := by
      apply List.sum_eq_zero
      intro y hy
      rcases List.mem_map.mp hy with ⟨x, hx, rfl⟩
      by_cases h : x < 0
      · simp [h]
      · have hx0 : x = 0 := le_antisymm (hall x hx) (le_of_not_lt h)
        simp [h, hx0]
    unfold compute_tangency_weights
    rw [if_neg (by rw [hz]; exact lt_irrefl 0)]

/-- Witness for C4: instantiation at the solved direction [1, -1]. -/
theorem compute_tangency_weights_spec_witness :
    (([(1 : ℚ), -1] : List ℚ) ≠ [])
      ∧ ((∀ w ∈ compute_tangency_weights [(1 : ℚ), -1], 0 ≤ w)
          ∧ (compute_tangency_weights [(1 : ℚ), -1]).sum = 1
          ∧ ((∀ x ∈ ([(1 : ℚ), -1] : List ℚ), x ≤ 0) →
              compute_tangency_weights [(1 : ℚ), -1]
                = List.replicate ([(1 : ℚ), -1] : List ℚ).length
                    ((1 : ℚ) / ([(1 : ℚ), -1] : List ℚ).length))) :=
  ⟨by simp, compute_tangency_weights_spec [(1 : ℚ), -1] (by simp)⟩

/-- Adding a list to a base list componentwise and subtracting the base again
recovers the list, when the base is at least as long. -/
theorem zipWith_sub_zipWith_add (c L : List ℚ) (h : L.length ≤ c.length) :
    List.zipWith (fun t c => t - c) (List.zipWith (fun x y => x + y) c L) c = L := by
  induction c generalizing L with
  | nil =>
    have : L = [] := List.length_eq_zero.mp (Nat.le_zero.mp h)
    simp [this]
  | cons a c ih =>
    cases L with
    | nil => simp
    | cons x L =>
      simp only [List.zipWith_cons_cons, List.cons.injEq]
      exact ⟨by ring, ih L (by simpa using h)⟩

/-- The pointwise band-suppression step is idempotent. -/
theorem band_suppression_step_idem (b d : ℚ) :
    (if |(if |d| ≤ b then (0 : ℚ) else d)| ≤ b then (0 : ℚ)
     else if |d| ≤ b then 0 else d)
      = if |d| ≤ b then 0 else d := by
  by_cases h : |d| ≤ b
  · simp [h]
  · simp [h]

/-- C10: band suppression is idempotent: re-running apply_rebalancing_bands on
the position reached by applying the first delta (with the same current weights
and band) returns the same delta. -/
theorem apply_rebalancing_bands_idem (t c : List ℚ) (b : ℚ) :
    apply_rebalancing_bands
        (List.zipWith (fun x y => x + y) c (apply_rebalancing_bands t c b)) c b
      = apply_rebalancing_bands t c b := by
  have hD : apply_rebalancing_bands t c b
      = (List.zipWith (fun t c => t - c) t c).map (fun d => if |d| ≤ b then 0 else d) :=
    rfl
  have hlen : (apply_rebalancing_bands t c b).length ≤ c.length := by
    rw [hD]
    simp only [List.length_map, List.length_zipWith]
    exact min_le_right _ _
  calc apply_rebalancing_bands
          (List.zipWith (fun x y => x + y) c (apply_rebalancing_bands t c b)) c b
      = (List.zipWith (fun t c => t - c)
          (List.zipWith (fun x y => x + y) c (apply_rebalancing_bands t c b)) c).map
          (fun d => if |d| ≤ b then 0 else d) := rfl
    _ = (apply_rebalancing_bands t c b).map (fun d => if |d| ≤ b then 0 else d) := by
          rw [zipWith_sub_zipWith_add c (apply_rebalancing_bands t c b) hlen]
    _ = apply_rebalancing_bands t c b := by
          rw [hD, List.map_map]
          apply List.map_congr_left
          intro d _
          simpa using band_suppression_step_idem b d

/-! ### src/execution/rebalance.py — trade execution and ledger model

rebalance() (lines 117-259), after optimization, executes trades:
  - if total turnover < 0.001, it logs a ledger entry with an empty trade list
    and returns;
  - otherwise it first loops over assets with delta < -0.001 submitting sell
    orders, then loops over assets with delta > 0.001 submitting buy orders;
  - each submission is wrapped in try/except: on success the trade is appended
    to the trades list, on failure the exception is printed and the loop
    continues (the failed trade is NOT appended);
  - finally a ledger entry is appended whose trade list maps each recorded
    trade to a record with status 'success'.

The outcome of each order submission (execute_order succeeding or raising) is
modelled by the oracle ok : asset index → side → Bool.
-/

/-- Order side. -/
inductive Side where
  | sell
  | buy
deriving DecidableEq, Repr

/-- A trade record as written to the ledger entry's trade list
(rebalance.py line 252). -/
structure LedgerTrade where
  pid : ℕ
  side : Side
  status : String
deriving DecidableEq, Repr

/-- Asset indices for which rebalance() submits a sell order
(rebalance.py lines 156-157: delta_weights[i] < -0.001). -/
def sell_attempts (delta_weights : List ℚ) : List ℕ :=
  (List.range delta_weights.length).filter
    (fun i => decide (delta_weights.getD i 0 < -(1/1000)))

/-- Asset indices for which rebalance() submits a buy order
(rebalance.py lines 180-181: delta_weights[i] > 0.001). -/
def buy_attempts (delta_weights : List ℚ) : List ℕ :=
  (List.range delta_weights.length).filter
    (fun i => decide ((1/1000 : ℚ) < delta_weights.getD i 0))

/-- The trades list accumulated by rebalance(): successful sells in asset
order, then successful buys in asset order; failed submissions are caught and
skipped (lines 160-166 and 188-194); the ledger maps every recorded trade to
status 'success' (line 252). -/
def executed_trades (delta_weights : List ℚ) (ok : ℕ → Side → Bool) :
    List LedgerTrade :=
  ((sell_attempts delta_weights).filter (fun i => ok i Side.sell)).map
    (fun i => { pid := i, side := Side.sell, status := "success" })
  ++ ((buy_attempts delta_weights).filter (fun i => ok i Side.buy)).map
    (fun i => { pid := i, side := Side.buy, status := "success" })

/-- The fields of the ledger entry relevant to the claims. -/
structure LogEntry where
  total_turnover : ℚ
  trades : List LedgerTrade
deriving DecidableEq, Repr

/-- The execution-and-ledger phase of rebalance() (lines 117-259): an entry is
appended in both the no-trade branch (lines 124-153) and the trading branch
(lines 155-259). -/
def rebalance_execution (delta_weights : List ℚ) (ok : ℕ → Side → Bool) :
    LogEntry :=
  if (delta_weights.map (fun d => |d|)).sum < 1/1000 then
    { total_turnover := (delta_weights.map (fun d => |d|)).sum, trades := [] }
  else
    { total_turnover := (delta_weights.map (fun d => |d|)).sum,
      trades := executed_trades delta_weights ok }

/-- In a concatenation of an all-sell list and an all-buy list, the side of the
m-th element is determined by whether m falls in the first block. -/
theorem getD_append_side {A B : List LedgerTrade}
    (hA : ∀ t ∈ A, t.side = Side.sell) (hB : ∀ t ∈ B, t.side = Side.buy)
    (m : ℕ) (hm : m < (A ++ B).length) (d : LedgerTrade) :
    ((A ++ B).getD m d).side = if m < A.length then Side.sell else Side.buy := by
  rw [List.getD_eq_getElem _ _ hm]
  by_cases h : m < A.length
  · rw [if_pos h, List.getElem_append_left h]
    exact hA _ (List.getElem_mem _)
  · rw [if_neg h, List.getElem_append_right (le_of_not_lt h)]
    exact hB _ (List.getElem_mem _)

/-- C7: in the trade list appended to the ledger, no buy ever precedes a sell:
if position i holds a buy and position j holds a sell, then j < i. -/
theorem rebalance_sell_before_buy (delta_weights : List ℚ) (ok : ℕ → Side → Bool)
    (i j : ℕ)
    (hi : i < ((rebalance_execution delta_weights ok).trades).length)
    (hj : j < ((rebalance_execution delta_weights ok).trades).length)
    (hbuy : (((rebalance_execution delta_weights ok).trades).getD i
        { pid := 0, side := Side.sell, status := "" }).side = Side.buy)
    (hsell : (((rebalance_execution delta_weights ok).trades).getD j
        { pid := 0, side := Side.sell, status := "" }).side = Side.sell) :
    j < i := by
  by_cases ht : (delta_weights.map (fun d => |d|)).sum < 1/1000
  · rw [rebalance_execution, if_pos ht] at hi
    simp at hi
  · simp only [rebalance_execution, if_neg ht] at hi hj hbuy hsell
    rw [executed_trades] at hi hj hbuy hsell
    have hA : ∀ t ∈ ((sell_attempts delta_weights).filter
        (fun i => ok i Side.sell)).map
        (fun i => ({ pid := i, side := Side.sell, status := "success" } :
          LedgerTrade)), t.side = Side.sell := by
      intro t ht'
      rcases List.mem_map.mp ht' with ⟨_, _, rfl⟩
      rfl
    have hB : ∀ t ∈ ((buy_attempts delta_weights).filter
        (fun i => ok i Side.buy)).map
        (fun i => ({ pid := i, side := Side.buy, status := "success" } :
          LedgerTrade)), t.side = Side.buy := by
      intro t ht'
      rcases List.mem_map.mp ht' with ⟨_, _, rfl⟩
      rfl
    rw [getD_append_side hA hB i hi _] at hbuy
    rw [getD_append_side hA hB j hj _] at hsell
    by_cases hscut : j < (((sell_attempts delta_weights).filter
        (fun i => ok i Side.sell)).map
        (fun i => ({ pid := i, side := Side.sell, status := "success" } :
          LedgerTrade))).length
    · by_cases hbcut : i < (((sell_attempts delta_weights).filter
          (fun i => ok i Side.sell)).map
          (fun i => ({ pid := i, side := Side.sell, status := "success" } :
            LedgerTrade))).length
      · rw [if_pos hbcut] at hbuy
        exact absurd hbuy (by simp)
      · exact lt_of_lt_of_le hscut (le_of_not_lt hbcut)
    · rw [if_neg hscut] at hsell
      exact absurd hsell (by simp)

/-- Witness for C7: with delta [-1/2, 1/2] and every submission succeeding, the
recorded list is [sell of asset 0, buy of asset 1], and the theorem applies at
i = 1, j = 0. -/
theorem rebalance_sell_before_buy_witness :
    ((rebalance_execution [-(1/2), (1/2 : ℚ)] (fun _ _ => true)).trades
        = [{ pid := 0, side := Side.sell, status := "success" },
           { pid := 1, side := Side.buy, status := "success" }])
      ∧ (0 : ℕ) < 1 := by
  have htr : (rebalance_execution [-(1/2), (1/2 : ℚ)] (fun _ _ => true)).trades
      = [{ pid := 0, side := Side.sell, status := "success" },
         { pid := 1, side := Side.buy, status := "success" }] := by
    rw [rebalance_execution,
        if_neg (by norm_num [abs_of_nonneg, abs_of_nonpos])]
    norm_num [executed_trades, sell_attempts, buy_attempts, List.range_succ]
  refine ⟨htr, ?_⟩
  apply rebalance_sell_before_buy [-(1/2), (1/2 : ℚ)] (fun _ _ => true) 1 0
    (by rw [htr]; norm_num) (by rw [htr]; norm_num)
    (by rw [htr]; rfl) (by rw [htr]; rfl)

/-- Submission oracle under which the sell order on asset 0 is rejected and
every other submission succeeds. -/
def ok_first_sell_fails : ℕ → Side → Bool
  | 0, Side.sell => false
  | _, _ => true

/-- Counterexample to C2: with delta [-1/2, 1/2] the sell on asset 0 is
attempted and its submission fails, the buy on asset 1 succeeds, yet the
ledger entry's trade list is exactly the successful buy with status 'success';
the failed sell does not appear in the recorded trade list at all (with any
status), contradicting the claim that failed submissions appear with a
non-success status. -/
theorem rebalance_ledger_counterexample :
    sell_attempts [-(1/2), (1/2 : ℚ)] = [0]
      ∧ buy_attempts [-(1/2), (1/2 : ℚ)] = [1]
      ∧ ok_first_sell_fails 0 Side.sell = false
      ∧ ok_first_sell_fails 1 Side.buy = true
      ∧ (rebalance_execution [-(1/2), (1/2 : ℚ)] ok_first_sell_fails).trades
          = [{ pid := 1, side := Side.buy, status := "success" }]
      ∧ ((rebalance_execution [-(1/2), (1/2 : ℚ)] ok_first_sell_fails).trades).all
          (fun t => decide (t.pid ≠ 0)) = true := by
  have hs : sell_attempts [-(1/2), (1/2 : ℚ)] = [0] := by
    norm_num [sell_attempts, List.range_succ]
  have hb : buy_attempts [-(1/2), (1/2 : ℚ)] = [1] := by
    norm_num [buy_attempts, List.range_succ]
  have htr : (rebalance_execution [-(1/2), (1/2 : ℚ)] ok_first_sell_fails).trades
      = [{ pid := 1, side := Side.buy, status := "success" }] := by
    rw [rebalance_execution,
        if_neg (by norm_num [abs_of_nonneg, abs_of_nonpos])]
    rw [executed_trades, hs, hb]
    simp [ok_first_sell_fails]
  exact ⟨hs, hb, rfl, rfl, htr, by rw [htr]; rfl⟩

/-- C2 as amended: when the turnover is at least the 0.001 threshold, the
invocation completes and appends a ledger entry whose trade list contains
exactly the attempted trades whose submission succeeded, each recorded with
status 'success'; failed submissions do not appear in the trade list. -/
theorem rebalance_ledger_success_only (delta_weights : List ℚ)
    (ok : ℕ → Side → Bool)
    (h : ¬ (delta_weights.map (fun d => |d|)).sum < 1/1000) :
    (∀ t ∈ (rebalance_execution delta_weights ok).trades, t.status = "success")
      ∧ (∀ (i : ℕ) (s : Side),
          ({ pid := i, side := s, status := "success" } : LedgerTrade)
              ∈ (rebalance_execution delta_weights ok).trades
            ↔ (ok i s = true
                ∧ ((s = Side.sell ∧ i ∈ sell_attempts delta_weights)
                    ∨ (s = Side.buy ∧ i ∈ buy_attempts delta_weights)))) := by
  have htr : (rebalance_execution delta_weights ok).trades
      = executed_trades delta_weights ok := by
    rw [rebalance_execution, if_neg h]
  rw [htr]
  constructor
  · intro t ht
    rcases List.mem_append.mp ht with hm | hm <;>
      rcases List.mem_map.mp hm with ⟨_, _, rfl⟩ <;> rfl
  · intro i s
    rw [executed_trades]
    cases s <;>
      simp [List.mem_append, List.mem_map, List.mem_filter,
        LedgerTrade.mk.injEq] <;>
      tauto

/-- Witness for C2's amended theorem: delta [-1/2, 1/2] with every submission
succeeding has turnover 1 above the threshold. -/
theorem rebalance_ledger_success_only_witness :
    (¬ ((([-(1/2), (1/2 : ℚ)] : List ℚ).map (fun d => |d|)).sum < 1/1000))
      ∧ ((∀ t ∈ (rebalance_execution [-(1/2), (1/2 : ℚ)]
            (fun _ _ => true)).trades, t.status = "success")
          ∧ (∀ (i : ℕ) (s : Side),
              ({ pid := i, side := s, status := "success" } : LedgerTrade)
                  ∈ (rebalance_execution [-(1/2), (1/2 : ℚ)]
                      (fun _ _ => true)).trades
                ↔ ((fun _ _ => true) i s = true
                    ∧ ((s = Side.sell ∧ i ∈ sell_attempts [-(1/2), (1/2 : ℚ)])
                        ∨ (s = Side.buy
                            ∧ i ∈ buy_attempts [-(1/2), (1/2 : ℚ)]))))) :=
  ⟨by norm_num [abs_of_nonneg, abs_of_nonpos],
   rebalance_ledger_success_only [-(1/2), (1/2 : ℚ)] (fun _ _ => true)
     (by norm_num [abs_of_nonneg, abs_of_nonpos])⟩

/-! ### C1 — the halflife keyword argument and Python call semantics

optimize_portfolio (optimize_portfolio.py line 197) is declared as
    def optimize_portfolio(prices, current_weights=None)
with no other parameter and no **kwargs.  Its callers invoke it as
    rebalance.py line 108:
      optimize_portfolio(price_matrix, current_weights=current_weights, halflife=60)
    daily_trade.py line 204:
      optimize_portfolio(price_matrix, current_weights=None, halflife=60)
    back_test.py line 263:
      optimize_portfolio(price_matrix, current_weights=risky_weights, halflife=window)
In Python, a call with a keyword argument that matches no declared parameter of
a function without **kwargs raises TypeError before the body runs.  The
signature and each call site are modelled by their keyword-parameter name
lists, and rebalance() by the sequence of externally visible effects it
produces (order submissions, ledger appends) together with the exception it
ends in.
-/

/-- Keyword-accepting parameter names of optimize_portfolio. -/
def optimize_portfolio_params : List String := ["prices", "current_weights"]

/-- Keyword arguments of the optimize_portfolio call in rebalance(). -/
def rebalance_optimize_kwargs : List String := ["current_weights", "halflife"]

/-- Keyword arguments of the optimize_portfolio call in daily_trade.main(). -/
def daily_trade_optimize_kwargs : List String := ["current_weights", "halflife"]

/-- Keyword arguments of the optimize_portfolio call in run_backtest(). -/
def back_test_optimize_kwargs : List String := ["current_weights", "halflife"]

/-- Python call semantics: a call is accepted only when every keyword argument
names a declared parameter (no **kwargs in the signature). -/
def call_accepts (params kwargs : List String) : Bool :=
  kwargs.all (fun k => params.contains k)

/-- A Python exception, as far as the claims need. -/
inductive PyExc where
  | typeError
deriving DecidableEq, Repr

/-- Externally visible effect of rebalance(). -/
inductive Effect where
  | orderSubmitted (pid : ℕ) (side : Side)
  | ledgerAppend
deriving DecidableEq, Repr

/-- Order-submission effects of the execution phase: one submission per sell
attempt, then one per buy attempt (submission happens whether or not the order
is ultimately accepted). -/
def order_effects (delta_weights : List ℚ) : List Effect :=
  (sell_attempts delta_weights).map (fun i => Effect.orderSubmitted i Side.sell)
  ++ (buy_attempts delta_weights).map (fun i => Effect.orderSubmitted i Side.buy)

/-- The effect trace of one rebalance() invocation.  Step 1 (reading balances
and prices) submits no order and writes no ledger entry.  Step 2 calls
optimize_portfolio with the keyword arguments of rebalance.py line 108; if the
call is rejected the TypeError propagates out of rebalance() with no further
effect.  Otherwise steps 3-4 would run the execution phase on the resulting
delta (modelled by the delta_weights parameter) and append a ledger entry. -/
def rebalance_script (delta_weights : List ℚ) : List Effect × Option PyExc :=
  if call_accepts optimize_portfolio_params rebalance_optimize_kwargs then
    if (delta_weights.map (fun d => |d|)).sum < 1/1000 then
      ([Effect.ledgerAppend], none)
    else
      (order_effects delta_weights ++ [Effect.ledgerAppend], none)
  else
    ([], some PyExc.typeError)

/-- C1: every rebalance() invocation that reaches the optimization step raises
TypeError — the keyword halflife is passed but is not a parameter of
optimize_portfolio — and its effect trace is empty: no order is submitted and
no ledger entry is written; the calls in daily_trade.py and back_test.py are
rejected for the same reason. -/
theorem rebalance_halflife_type_error (delta_weights : List ℚ) :
    rebalance_script delta_weights = ([], some PyExc.typeError)
      ∧ "halflife" ∈ rebalance_optimize_kwargs
      ∧ "halflife" ∉ optimize_portfolio_params
      ∧ call_accepts optimize_portfolio_params rebalance_optimize_kwargs = false
      ∧ call_accepts optimize_portfolio_params daily_trade_optimize_kwargs = false
      ∧ call_accepts optimize_portfolio_params back_test_optimize_kwargs = false := by
  have hc : call_accepts optimize_portfolio_params rebalance_optimize_kwargs
      = false := by decide
  refine ⟨?_, by decide, by decide, hc, by decide, by decide⟩
  rw [rebalance_script, hc]
  simp

/-! ### src/execution/optimize_portfolio.py — real-valued steps -/

/-- Embedding of compute_log_returns (optimize_portfolio.py lines 11-21):
np.diff(np.log(prices), axis=0) — take elementwise logarithms, then subtract
each row from the next.  A price matrix is a list of rows (days). -/
noncomputable def compute_log_returns (prices : List (List ℝ)) : List (List ℝ) :=
  let logp := prices.map (fun row => row.map Real.log)
  List.zipWith (fun prev next => List.zipWith (fun a b => a - b) next prev)
    logp logp.tail

/-- Error classes named by the spec for the estimator pipeline.  No such
exception class exists anywhere in the source. -/
inductive DataError where
  | insufficientData
  | dimensionMismatch
deriving DecidableEq, Repr

/-- The error behaviour of compute_log_returns: the source body is the single
expression np.diff(np.log(prices), axis=0), which contains no raise statement
and no input validation, so the function always returns a value. -/
noncomputable def compute_log_returnsE (prices : List (List ℝ)) :
    Except DataError (List (List ℝ)) :=
  Except.ok (compute_log_returns prices)

/-- Counterexample to C3: on the 1-row price matrix [[1, 2]] (N = 1 < 2) the
pipeline does not fail with InsufficientDataError — compute_log_returns
returns normally with the empty returns matrix. -/
theorem compute_log_returns_no_error_counterexample :
    (([[(1 : ℝ), 2]] : List (List ℝ)).length < 2)
      ∧ compute_log_returnsE [[(1 : ℝ), 2]] = Except.ok []
      ∧ compute_log_returns [[(1 : ℝ), 2]] = [] :=
  ⟨by decide, rfl, rfl⟩

/-- C3 as amended: for every price matrix with fewer than 2 rows the pipeline
raises nothing: compute_log_returns returns normally and its value is the
empty (N-1 row) returns matrix; no InsufficientDataError or
DimensionMismatchError exists in the code. -/
theorem compute_log_returns_short_input (prices : List (List ℝ))
    (h : prices.length < 2) :
    compute_log_returnsE prices = Except.ok (compute_log_returns prices)
      ∧ compute_log_returns prices = [] := by
  refine ⟨rfl, ?_⟩
  cases prices with
  | nil => rfl
  | cons r rest =>
    cases rest with
    | nil => rfl
    | cons r' rest' => simp at h; omega

/-- Witness for C3's amended theorem at the 1-row matrix [[5]]. -/
theorem compute_log_returns_short_input_witness :
    (([[(5 : ℝ)]] : List (List ℝ)).length < 2)
      ∧ (compute_log_returnsE [[(5 : ℝ)]]
            = Except.ok (compute_log_returns [[(5 : ℝ)]])
          ∧ compute_log_returns [[(5 : ℝ)]] = []) :=
  ⟨by decide, compute_log_returns_short_input [[(5 : ℝ)]] (by decide)⟩

/-- The quadratic form weights.T @ cov_matrix @ weights. -/
def quad_form {k : ℕ} (weights : Fin k → ℝ) (cov_matrix : Matrix (Fin k) (Fin k) ℝ) :
    ℝ :=
  Matrix.dotProduct weights (cov_matrix.mulVec weights)

/-- Embedding of scale_by_volatility (optimize_portfolio.py lines 125-150):
annualized volatility is sqrt((w.T @ cov @ w) * 365); the risk exposure is
min(1, target_vol / portfolio_vol) when portfolio_vol > 0 and 1 otherwise; the
weights are scaled by the risk exposure.  Returns (scaled weights, exposure). -/
noncomputable def scale_by_volatility {k : ℕ} (weights : Fin k → ℝ)
    (cov_matrix : Matrix (Fin k) (Fin k) ℝ) (target_vol : ℝ) :
    (Fin k → ℝ) × ℝ :=
  let portfolio_vol := Real.sqrt (quad_form weights cov_matrix * 365)
  let risk_exposure := if 0 < portfolio_vol then min 1 (target_vol / portfolio_vol)
                       else 1
  (fun i => risk_exposure * weights i, risk_exposure)

/-- C6: for every weight vector and covariance matrix, with a positive target
volatility, the risk exposure e equals min(1, target/sigma_p) when the
annualized volatility sigma_p is positive and 1 otherwise, the returned
weights are e * w, and e lies in (0, 1] — scaling never leverages up. -/
theorem scale_by_volatility_spec {k : ℕ} (w : Fin k → ℝ)
    (cov : Matrix (Fin k) (Fin k) ℝ) (target_vol : ℝ) (h : 0 < target_vol) :
    0 < (scale_by_volatility w cov target_vol).2
      ∧ (scale_by_volatility w cov target_vol).2 ≤ 1
      ∧ (scale_by_volatility w cov target_vol).1
          = (fun i => (scale_by_volatility w cov target_vol).2 * w i)
      ∧ (0 < Real.sqrt (quad_form w cov * 365) →
          (scale_by_volatility w cov target_vol).2
            = min 1 (target_vol / Real.sqrt (quad_form w cov * 365)))
      ∧ (¬ 0 < Real.sqrt (quad_form w cov * 365) →
          (scale_by_volatility w cov target_vol).2 = 1) := by
  simp only [scale_by_volatility]
  by_cases hpv : 0 < Real.sqrt (quad_form w cov * 365)
  · rw [if_pos hpv]
    refine ⟨lt_min one_pos (div_pos h hpv), min_le_left _ _, trivial,
           fun _ => rfl, fun habs => absurd hpv habs⟩
  · rw [if_neg hpv]
    exact ⟨one_pos, le_refl 1, trivial, fun habs => absurd habs hpv, fun _ => rfl⟩

/-- Witness for C6: a one-asset portfolio with full weight and daily variance
1/365 has annualized volatility sqrt(1) = 1, and the target 0.15 of globals.py
is positive. -/
theorem scale_by_volatility_spec_witness :
    (0 : ℝ) < 3/20
      ∧ (0 < (scale_by_volatility (fun _ : Fin 1 => (1 : ℝ))
            (Matrix.of fun _ _ => (1/365 : ℝ)) (3/20)).2
          ∧ (scale_by_volatility (fun _ : Fin 1 => (1 : ℝ))
              (Matrix.of fun _ _ => (1/365 : ℝ)) (3/20)).2 ≤ 1
          ∧ (scale_by_volatility (fun _ : Fin 1 => (1 : ℝ))
              (Matrix.of fun _ _ => (1/365 : ℝ)) (3/20)).1
              = (fun i => (scale_by_volatility (fun _ : Fin 1 => (1 : ℝ))
                  (Matrix.of fun _ _ => (1/365 : ℝ)) (3/20)).2
                  * (fun _ : Fin 1 => (1 : ℝ)) i)
          ∧ (0 < Real.sqrt (quad_form (fun _ : Fin 1 => (1 : ℝ))
                (Matrix.of fun _ _ => (1/365 : ℝ)) * 365) →
              (scale_by_volatility (fun _ : Fin 1 => (1 : ℝ))
                  (Matrix.of fun _ _ => (1/365 : ℝ)) (3/20)).2
                = min 1 ((3/20 : ℝ) / Real.sqrt (quad_form (fun _ : Fin 1 => (1 : ℝ))
                    (Matrix.of fun _ _ => (1/365 : ℝ)) * 365)))
          ∧ (¬ 0 < Real.sqrt (quad_form (fun _ : Fin 1 => (1 : ℝ))
                (Matrix.of fun _ _ => (1/365 : ℝ)) * 365) →
              (scale_by_volatility (fun _ : Fin 1 => (1 : ℝ))
                  (Matrix.of fun _ _ => (1/365 : ℝ)) (3/20)).2 = 1)) :=
  ⟨by norm_num,
   scale_by_volatility_spec (fun _ : Fin 1 => (1 : ℝ))
     (Matrix.of fun _ _ => (1/365 : ℝ)) (3/20) (by norm_num)⟩

/-- The EWMA decay factor lambda = 2 ** (-1 / halflife)
(optimize_portfolio.py line 57). -/
noncomputable def lambda_decay (halflife : ℝ) : ℝ :=
  (2 : ℝ) ^ ((-1 : ℝ) / halflife)

/-- Embedding of compute_ewma_covariance (optimize_portfolio.py lines 43-73):
deviations of each row from the column mean are weighted by
lambda ^ (n_days - 1 - t), their outer products summed, the sum scaled by
(1 - lambda), and 1e-8 times the identity added. -/
noncomputable def compute_ewma_covariance {n_days n_assets : ℕ}
    (excess_returns : Fin n_days → Fin n_assets → ℝ) (halflife : ℝ) :
    Matrix (Fin n_assets) (Fin n_assets) ℝ :=
  let lam := lambda_decay halflife
  let mean_return : Fin n_assets → ℝ :=
    fun j => (∑ t, excess_returns t j) / n_days
  let deviation : Fin n_days → Fin n_assets → ℝ :=
    fun t j => excess_returns t j - mean_return j
  (1 - lam) • (∑ t : Fin n_days, lam ^ (n_days - 1 - t.val)
      • Matrix.vecMulVec (deviation t) (deviation t))
    + (1e-8 : ℝ) • (1 : Matrix (Fin n_assets) (Fin n_assets) ℝ)

/-- With positive halflife the decay factor is strictly positive. -/
theorem lambda_decay_pos (halflife : ℝ) : 0 < lambda_decay halflife :=
  Real.rpow_pos_of_pos (by norm_num) _

/-- With positive halflife the decay factor is strictly below one. -/
theorem lambda_decay_lt_one (halflife : ℝ) (hh : 0 < halflife) :
    lambda_decay halflife < 1 :=
  Real.rpow_lt_one_of_one_lt_of_neg (by norm_num)
    (div_neg_of_neg_of_pos (by norm_num) hh)

/-- The quadratic form of a finite sum of matrices is the sum of the quadratic
forms. -/
theorem dotProduct_sum_mulVec {k n : ℕ} (x : Fin k → ℝ) (s : Finset (Fin n))
    (f : Fin n → Matrix (Fin k) (Fin k) ℝ) :
    Matrix.dotProduct x ((∑ t ∈ s, f t).mulVec x)
      = ∑ t ∈ s, Matrix.dotProduct x ((f t).mulVec x) := by
  classical
  induction s using Finset.induction_on with
  | empty => simp
  | insert h ih =>
    rw [Finset.sum_insert h, Finset.sum_insert h, Matrix.add_mulVec,
        Matrix.dotProduct_add, ih]

/-- The quadratic form of a scalar multiple of a matrix. -/
theorem dotProduct_smul_mulVec {k : ℕ} (c : ℝ) (A : Matrix (Fin k) (Fin k) ℝ)
    (x : Fin k → ℝ) :
    Matrix.dotProduct x ((c • A).mulVec x)
      = c * Matrix.dotProduct x (A.mulVec x) := by
  rw [Matrix.smul_mulVec_assoc, Matrix.dotProduct_smul, smul_eq_mul]

/-- The quadratic form of a self outer product is a square. -/
theorem dotProduct_vecMulVec_self {k : ℕ} (x v : Fin k → ℝ) :
    Matrix.dotProduct x ((Matrix.vecMulVec v v).mulVec x)
      = (Matrix.dotProduct v x) ^ 2 := by
  simp only [Matrix.dotProduct, Matrix.mulVec, Matrix.vecMulVec_apply]
  rw [sq, Finset.sum_mul_sum]
  apply Finset.sum_congr rfl
  intro i _
  rw [Finset.mul_sum]
  apply Finset.sum_congr rfl
  intro j _
  ring

/-- The dot product of a nonzero real vector with itself is positive. -/
theorem dotProduct_self_pos {k : ℕ} (x : Fin k → ℝ) (hx : x ≠ 0) :
    0 < Matrix.dotProduct x x := by
  have hnn : 0 ≤ Matrix.dotProduct x x :=
    Finset.sum_nonneg fun i _ => mul_self_nonneg (x i)
  rcases lt_or_eq_of_le hnn with h | h
  · exact h
  · exact absurd (Matrix.dotProduct_self_eq_zero.mp h.symm) hx

/-- C8: for positive halflife and at least one return row, the EWMA covariance
matrix is symmetric and positive definite: every nonzero vector has a strictly
positive quadratic form (hence the matrix is invertible). -/
theorem compute_ewma_covariance_spec {n_days n_assets : ℕ}
    (excess_returns : Fin n_days → Fin n_assets → ℝ) (halflife : ℝ)
    (hh : 0 < halflife) (hn : 1 ≤ n_days) :
    (compute_ewma_covariance excess_returns halflife).IsSymm
      ∧ ∀ x : Fin n_assets → ℝ, x ≠ 0 →
          0 < Matrix.dotProduct x
              ((compute_ewma_covariance excess_returns halflife).mulVec x) := by
  have hlam0 : 0 < lambda_decay halflife := lambda_decay_pos halflife
  have hlam1 : lambda_decay halflife < 1 := lambda_decay_lt_one halflife hh
  constructor
  · show Matrix.transpose (compute_ewma_covariance excess_returns halflife)
        = compute_ewma_covariance excess_returns halflife
    ext i j
    simp only [compute_ewma_covariance, Matrix.transpose_apply, Matrix.add_apply,
      Matrix.smul_apply, Matrix.sum_apply, Matrix.vecMulVec_apply,
      Matrix.one_apply, smul_eq_mul]
    congr 1
    · congr 1
      apply Finset.sum_congr rfl
      intro t _
      ring
    · by_cases hij : i = j
      · subst hij
        rfl
      · rw [if_neg hij, if_neg fun hji => hij hji.symm]
  · intro x hx
    simp only [compute_ewma_covariance]
    rw [Matrix.add_mulVec, Matrix.dotProduct_add, dotProduct_smul_mulVec,
        dotProduct_smul_mulVec, Matrix.one_mulVec, dotProduct_sum_mulVec]
    simp only [dotProduct_smul_mulVec, dotProduct_vecMulVec_self]
    have h1 : 0 ≤ (1 - lambda_decay halflife)
        * ∑ t : Fin n_days, lambda_decay halflife ^ (n_days - 1 - t.val)
            * (Matrix.dotProduct
                (fun j => excess_returns t j
                  - (∑ r, excess_returns r j) / n_days) x) ^ 2 := by
      apply mul_nonneg (by linarith)
      apply Finset.sum_nonneg
      intro t _
      exact mul_nonneg (pow_nonneg hlam0.le _) (sq_nonneg _)
    have h2 : 0 < (1e-8 : ℝ) * Matrix.dotProduct x x :=
      mul_pos (by norm_num) (dotProduct_self_pos x hx)
    linarith

/-- Witness for C8: a single zero return row with halflife 60 (the EWMA_HALFLIFE
of globals.py). -/
theorem compute_ewma_covariance_spec_witness :
    (0 : ℝ) < 60 ∧ (1 : ℕ) ≤ 1
      ∧ ((compute_ewma_covariance (fun _ _ => (0 : ℝ) :
            Fin 1 → Fin 1 → ℝ) 60).IsSymm
          ∧ ∀ x : Fin 1 → ℝ, x ≠ 0 →
              0 < Matrix.dotProduct x
                  ((compute_ewma_covariance (fun _ _ => (0 : ℝ) :
                      Fin 1 → Fin 1 → ℝ) 60).mulVec x)) :=
  ⟨by norm_num, le_refl 1,
   compute_ewma_covariance_spec (fun _ _ => (0 : ℝ)) 60 (by norm_num) (le_refl 1)⟩

end CoinTrader
